import Mathlib

/-!
# Verification of the Detective-Conan-Graph-RAG core

A shallow embedding of `src/graph_rag_vertex_neo4j.py`, the hybrid
graph-vector retrieval engine:

* `normRelType` — the relationship-type normalization
  `rel['type'].upper().replace(' ', '_').replace('-', '_')` (line 123);
* `ingest` — the graph side of `ingest_evidence` (lines 86-147) on a
  well-shaped extraction result: chunk insertion into the vector index,
  entity `MERGE ... SET`, edge `MATCH ... MATCH ... MERGE` and the
  `MENTIONS` linking query, acting on an explicit `GraphState`;
* `rawIngest` — the same pipeline on the raw (untrusted) JSON value the
  extraction backend returns, with Python's dynamic failure modes
  (`KeyError`, `AttributeError`, `TypeError`) made explicit in `Except`;
* `investigate` — `investigate_case` (lines 153-184): context
  concatenation and the fixed two-hop `:RELATED` traversal with `LIMIT 20`;
* `crimePrompt` — the prompt `solve_crime` (lines 190-214) builds after
  de-duplicating the graph facts with `set()`.

The external collaborators (embedding service, generation backend, vector
similarity ranking) enter as parameters: the extraction response is an
input of `ingest`/`rawIngest`, and the ranked chunk list returned by
`similarity_search` is an input of `investigate`.
-/

/-! ## Python / Cypher string primitives -/

/-- Python `s.upper()` restricted to the ASCII range (`Char.toUpper`
uppercases exactly `'a'`-`'z'`; all strings handled by the pipeline's
claims are ASCII). -/
def pyUpper (s : String) : String :=
  ⟨s.data.map Char.toUpper⟩

/-- Python `s.replace(old, new)` for single-character `old`/`new`, which is
exactly character substitution. -/
def pyReplaceChar (s : String) (old new : Char) : String :=
  ⟨s.data.map (fun c => if c == old then new else c)⟩

/-- Python `s[:n]` (the first `n` characters). -/
def pySlice (s : String) (n : Nat) : String :=
  ⟨s.data.take n⟩

/-- ASCII lowering, for the `(?i)` case-insensitive regex flag. -/
def lowerStr (s : String) : String :=
  ⟨s.data.map Char.toLower⟩

/-- `needle` occurs as a contiguous substring of `hay`
(Cypher `CONTAINS`). -/
def strContainsSub (hay needle : String) : Bool :=
  hay.data.tails.any (fun t => needle.data.isPrefixOf t)

/-- Cypher `c.text =~ ('(?i).*' + id + '.*')`: a full-string match of the
regex `.*id.*` with case folding, i.e. case-insensitive substring
containment (the entity identifiers handled here contain no regex
metacharacters and the texts no newline). -/
def ciContains (hay needle : String) : Bool :=
  strContainsSub (lowerStr hay) (lowerStr needle)

/-! ## Relationship-type normalization (line 123)

`rel_type = rel['type'].upper().replace(' ', '_').replace('-', '_')` -/

/-- The sanitization applied to an extracted relationship type before it is
interpolated into the `MERGE (a)-[r:{rel_type}]->(b)` query text. -/
def normRelType (relType : String) : String :=
  pyReplaceChar (pyReplaceChar (pyUpper relType) ' ' '_') '-' '_'

/-- The alphabet `[A-Z0-9_]` that spec §9 requires of a normalized
relationship type. -/
def cypherSafeChar (c : Char) : Bool :=
  ('A' ≤ c && c ≤ 'Z') || c.isDigit || c == '_'

/-- ASCII letters and digits, space, hyphen and underscore: the inputs on
which the normalization does land inside `[A-Z0-9_]`. -/
def benignChars : List Char :=
  "ABCDEFGHIJKLMNOPQRSTUVWXYZabcdefghijklmnopqrstuvwxyz0123456789 -_".data

/-! ## Data model

`EvidenceChunk` nodes (the vector index records), `Entity` nodes,
entity-to-entity relationships, and `MENTIONS` edges from a chunk to an
entity.  A `MENTIONS` edge stores the position of the chunk node in the
insertion order of the store, since re-ingestion can create several chunk
nodes with the same text. -/

structure Chunk where
  text : String
  source : String
  deriving DecidableEq

structure Entity where
  id : String
  type : String
  deriving DecidableEq

/-- A stored relationship: `type` is the edge label (the normalized token
interpolated into the query), and the `MERGE` never sets any property on
the edge. -/
structure Relationship where
  source : String
  target : String
  type : String
  deriving DecidableEq

/-- One node of a well-shaped extraction result: `{"id": ..., "type": ...}`. -/
structure ExtNode where
  id : String
  type : String
  deriving DecidableEq

/-- A well-shaped extraction result:
`{"nodes": [{id, type}], "relationships": [{source, target, type}]}`.
The relationship entries reuse `Relationship`; their `type` field is the raw label
emitted by extraction, normalized only at edge-upsert time. -/
structure ExtractionResult where
  nodes : List ExtNode
  relationships : List Relationship
  deriving DecidableEq

/-- The persistent Neo4j state touched by the core. -/
structure GraphState where
  chunks : List Chunk
  entities : List Entity
  rels : List Relationship
  mentions : List (Nat × String)
  deriving DecidableEq

def emptyGS : GraphState := ⟨[], [], [], []⟩

/-! ## Graph store operations (lines 112-145) -/

/-- `MATCH (n:Entity {id: i})` succeeds: some stored entity has id `i`. -/
def entHasId (es : List Entity) (i : String) : Bool :=
  es.any (fun e => e.id == i)

/-- The `SET n.type = $type` part of the node query: every entity with id
`i` gets type `ty`. -/
def setTypeAll (es : List Entity) (i ty : String) : List Entity :=
  es.map (fun e => if e.id == i then { e with type := ty } else e)

/-- `MERGE (n:Entity {id: $id}) SET n.type = $type` (lines 115-118):
match on id, create on absence, and overwrite the type either way. -/
def upsertEntity (es : List Entity) (i ty : String) : List Entity :=
  if entHasId es i then setTypeAll es i ty else es ++ [⟨i, ty⟩]

/-- The node loop of step C.1: one upsert per extracted node, in order. -/
def applyNodes (es : List Entity) (ns : List ExtNode) : List Entity :=
  ns.foldl (fun es n => upsertEntity es n.id n.type) es

/-- An edge with this (source, target, label) triple already exists. -/
def relHas (rs : List Relationship) (s t ty : String) : Bool :=
  rs.any (fun r => r.source == s && r.target == t && r.type == ty)

/-- `MERGE (a)-[r:ty]->(b)`: create the directed edge unless one with the
same label already runs from `a` to `b`. -/
def mergeRel (rs : List Relationship) (s t ty : String) : List Relationship :=
  if relHas rs s t ty then rs else rs ++ [⟨s, t, ty⟩]

/-- Effect on the relationship set of one edge query (lines 126-130):
`MATCH (a:Entity {id: $source}), (b:Entity {id: $target})
 MERGE (a)-[r:{rel_type}]->(b)`.
If either `MATCH` finds no entity the query binds no rows and is a no-op.
(The embedded semantics assumes the normalized label lexes as a
relationship-type token, which holds for the extraction alphabet; a label
that breaks the query's syntax would abort the call instead.) -/
def relStepRels (E : List Entity) (rs : List Relationship) (r : Relationship) : List Relationship :=
  if entHasId E r.source && entHasId E r.target then
    mergeRel rs r.source r.target (normRelType r.type)
  else rs

/-- The relationship loop folded over the stored relationship list, with
the entity table fixed (no edge query creates or deletes entities). -/
def relsFold (E : List Entity) (rs : List Relationship) (l : List Relationship) : List Relationship :=
  l.foldl (fun rs r => relStepRels E rs r) rs

/-- One `session.run` of the node query, as a state transformer. -/
def runNodeUpsert (st : GraphState) (n : ExtNode) : GraphState :=
  { st with entities := upsertEntity st.entities n.id n.type }

/-- One `session.run` of the edge query, as a state transformer. -/
def runEdgeUpsert (st : GraphState) (r : Relationship) : GraphState :=
  { st with rels := relStepRels st.entities st.rels r }

/-- The chunk filter of the `MENTIONS` query (lines 134-145): the chunk
text case-insensitively contains the entity id and contains the 100-char
prefix sample of the just-ingested document. -/
def chunkMatchesEntity (c : Chunk) (entityId sample : String) : Bool :=
  ciContains c.text entityId && strContainsSub c.text sample

/-- `MERGE (c)-[:MENTIONS]->(e)`: add the edge unless present. -/
def mergeMention (ms : List (Nat × String)) (idx : Nat) (i : String) :
    List (Nat × String) :=
  if ms.any (fun m => m.1 == idx && m.2 == i) then ms else ms ++ [(idx, i)]

/-- One `session.run` of the `MENTIONS` query for one extracted node: rows
are (matching chunk, the entity with that id); with no such entity there
are no rows and the query is a no-op. -/
def runMention (st : GraphState) (n : ExtNode) (sample : String) : GraphState :=
  if entHasId st.entities n.id then
    { st with
      mentions :=
        st.chunks.enum.foldl
          (fun ms ic =>
            if chunkMatchesEntity ic.2 n.id sample then mergeMention ms ic.1 n.id
            else ms)
          st.mentions }
  else st

/-- The graph side of `ingest_evidence` (lines 86-147) for one document
with text `text` at path `src`, on a well-shaped extraction result `ext`:
(A) `Neo4jVector.from_documents` inserts a fresh `EvidenceChunk` record;
(C.1) the node loop; (C.2) the relationship loop; (C.3) the `MENTIONS`
loop, keyed by the sample `text_data[:100]`. -/
def ingest (st : GraphState) (text src : String) (ext : ExtractionResult) :
    GraphState :=
  let st1 := { st with chunks := st.chunks ++ [⟨text, src⟩] }
  let st2 := ext.nodes.foldl runNodeUpsert st1
  let st3 := ext.relationships.foldl runEdgeUpsert st2
  ext.nodes.foldl (fun s n => runMention s n (pySlice text 100)) st3

/-- The node list of an extraction assigns an id (proof auxiliary). -/
def assignedIn (ns : List ExtNode) (i : String) : Bool :=
  ns.any (fun n => n.id == i)

/-- Every stored entity carrying id `i` has type `t` (proof auxiliary). -/
def AllIdType (es : List Entity) (i t : String) : Prop :=
  ∀ e ∈ es, e.id = i → e.type = t

/-! ## Retrieval: `investigate_case` (lines 153-184) -/

/-- `r1.type` in the traversal's `RETURN` clause reads the *property*
`type` of the relationship.  The edge `MERGE` sets the relationship's
label but never any property, so the read yields Cypher `null` for every
stored edge. -/
def relPropType (_ : Relationship) : Option String := none

/-- The Python rendering of a possibly-`None` driver value inside an
f-string. -/
def pyShowOpt : Option String → String
  | none => "None"
  | some s => s

/-- The fact-string template of line 181. -/
def mkFact (s t1 m t2 e : String) : String :=
  s ++ " --[" ++ t1 ++ "]--> " ++ m ++ " --[" ++ t2 ++ "]--> " ++ e

/-- The undirected step `-[r:RELATED]-` from node `x`: each stored edge
with label `RELATED` incident to `x`, paired with its other endpoint. -/
def incidentRelated (rs : List Relationship) (x : String) : List (Relationship × String) :=
  rs.filterMap (fun r =>
    if r.type == "RELATED" then
      if r.source == x then some (r, r.target)
      else if r.target == x then some (r, r.source)
      else none
    else none)

/-- `MATCH (c:EvidenceChunk)-[:MENTIONS]->(start:Entity) WHERE c.text = $text`:
the start entities, one per `MENTIONS` edge whose chunk node carries the
retrieved text (several chunk nodes may share a text after re-ingestion). -/
def startIds (st : GraphState) (text : String) : List String :=
  st.mentions.filterMap (fun m =>
    match st.chunks.get? m.1 with
    | some c => if c.text == text then some m.2 else none
    | none => none)

/-- One row of the two-hop traversal. -/
structure TravRow where
  startId : String
  r1 : Relationship
  middleId : String
  r2 : Relationship
  endId : String
  deriving DecidableEq

/-- All rows of the pattern
`(start)-[r1:RELATED]-(middle)-[r2:RELATED]-(end)` with `start` mentioned
by a chunk carrying `text`; Cypher's relationship-uniqueness rule forbids
`r2 = r1`.  The store leaves row order unspecified; the model enumerates
mentions and edges in insertion order (no settled claim depends on the
order). -/
def twoHopRows (st : GraphState) (text : String) : List TravRow :=
  (startIds st text).flatMap (fun s =>
    (incidentRelated st.rels s).flatMap (fun p =>
      (incidentRelated st.rels p.2).filterMap (fun q =>
        if q.1 == p.1 then none else some ⟨s, p.1, p.2, q.1, q.2⟩)))

/-- One `session.run` of the traversal query (lines 170-177): a
`MATCH`/`WHERE`/`RETURN` statement with `LIMIT 20` — it reads the store
and returns at most 20 rows, leaving the store unchanged. -/
def readTwoHop (st : GraphState) (text : String) : GraphState × List TravRow :=
  (st, (twoHopRows st text).take 20)

/-- Line 181: the fact string built from one traversal row.  `r1.type` and
`r2.type` are null (see `relPropType`), so the bracket holds `"None"`. -/
def rowFact (row : TravRow) : String :=
  mkFact row.startId (pyShowOpt (relPropType row.r1)) row.middleId
    (pyShowOpt (relPropType row.r2)) row.endId

/-- The graph facts the retrieval step produces for one retrieved chunk. -/
def factsForChunk (st : GraphState) (text : String) : List String :=
  (readTwoHop st text).2.map rowFact

/-- One iteration of the retrieval loop (lines 163-182): append the
labeled chunk text to `context_text`, run the traversal query against the
current store, and append the formatted facts to `graph_context`. -/
def investigateStep (acc : GraphState × String × List String) (r : Chunk) :
    GraphState × String × List String :=
  let q := readTwoHop acc.1 r.text
  (q.1,
   acc.2.1 ++ "EVIDENCE FILE (" ++ r.source ++ "): " ++ r.text ++ "\n\n",
   acc.2.2 ++ q.2.map rowFact)

/-- `investigate_case(query, vector_store)`: `vectorResults` is the ranked
list `similarity_search` returns (k = 5, supplied by the external vector
backend).  Returns the final store state together with the accumulated
`context_text` and `graph_context`. -/
def investigate (st : GraphState) (vectorResults : List Chunk) :
    GraphState × String × List String :=
  vectorResults.foldl investigateStep (st, "", [])

/-! ## Synthesis: `solve_crime` (lines 190-214) -/

/-- `"\n".join(set(graph_context))`: Python `set()` keeps one copy of each
distinct fact string; its iteration order is unspecified and the model
uses first-occurrence order. -/
def synthFacts (graphContext : List String) : List String :=
  graphContext.dedup

/-- The single generation request `solve_crime` builds: persona
instruction, the de-duplicated evidence board, the case files and the
query. -/
def crimePrompt (query contextText : String) (graphContext : List String) :
    String :=
  "\n    You are the genius high school detective Shinichi Kudo, currently in the body of a child named **Conan Edogawa**. \n    \n    Solve the mystery based strictly on the \"Evidence Board\" (Graph) and \"Case Files\" (Text).\n    \n    [The Evidence Board (Graph Connections)]\n    "
    ++ String.intercalate "\n" (synthFacts graphContext)
    ++ "\n    \n    [Case Files (Text Evidence)]\n    "
    ++ contextText
    ++ "\n    \n    MYSTERY TO SOLVE: "
    ++ query
    ++ "\n\n    "

/-! ## The raw extraction payload (`extract_graph_schema`, lines 43-84, and
the dynamic behavior of `ingest_evidence` on it)

`json.loads` can return any JSON value, and `ingest_evidence` subscripts it
without validation, so shape mismatches surface as Python exceptions.  The
payload is modelled by `Json`, the exceptions by `PyError`. -/

inductive Json where
  | null
  | bool (b : Bool)
  | num (n : Int)
  | str (s : String)
  | arr (elems : List Json)
  | obj (fields : List (String × Json))

/-- The errors that can abort `ingest_evidence` after a successful JSON
parse: Python `KeyError` (`node['id']` on a dict without the key),
`TypeError` (subscripting or iterating a non-container), `AttributeError`
(`.get`/`.upper()` on a value without the method), and a Neo4j
`ClientError` (a parameter the store rejects, e.g. a map used as a
property value or concatenated into the regex). -/
inductive PyError where
  | keyError
  | typeError
  | attributeError
  | clientError
  deriving DecidableEq

mutual

/-- Deep equality of JSON values (Python `==` on the decoded objects),
used by the store's match-by-id semantics for ids of any JSON type. -/
def jeq : Json → Json → Bool
  | .null, .null => true
  | .bool a, .bool b => a == b
  | .num a, .num b => a == b
  | .str a, .str b => a == b
  | .arr xs, .arr ys => jeqList xs ys
  | .obj fs, .obj gs => jeqFields fs gs
  | _, _ => false

def jeqList : List Json → List Json → Bool
  | [], [] => true
  | x :: xs, y :: ys => jeq x y && jeqList xs ys
  | _, _ => false

def jeqFields : List (String × Json) → List (String × Json) → Bool
  | [], [] => true
  | f :: fs, g :: gs => f.1 == g.1 && jeq f.2 g.2 && jeqFields fs gs
  | _, _ => false

end

/-- The `try: return json.loads(...) except: return {"nodes": [], "relationships": []}`
of lines 80-84: the backend response either parsed to a JSON value or did
not (`none`), in which case the empty result is substituted. -/
def rawExtract (resp : Option Json) : Json :=
  match resp with
  | some j => j
  | none => Json.obj [("nodes", Json.arr []), ("relationships", Json.arr [])]

/-- Python `graph_data.get(key, default)`: only dicts have `.get`; a
missing key yields the default.  (For a dict `json.loads` builds, keys are
unique, so first-match lookup is exact.) -/
def pyGet (j : Json) (key : String) (dflt : Json) : Except PyError Json :=
  match j with
  | .obj fields => .ok ((fields.lookup key).getD dflt)
  | _ => .error .attributeError

/-- Python `node[key]` for a string key: `KeyError` on a dict without the
key, `TypeError` on any non-dict (string/list indices must be integers,
other values are not subscriptable). -/
def pySubscript (j : Json) (key : String) : Except PyError Json :=
  match j with
  | .obj fields =>
    match fields.lookup key with
    | some v => .ok v
    | none => .error .keyError
  | _ => .error .typeError

/-- Python `for x in v`: lists yield their elements, strings their
characters (as one-character strings), dicts their keys; other values are
not iterable. -/
def pyIter (j : Json) : Except PyError (List Json) :=
  match j with
  | .arr xs => .ok xs
  | .str s => .ok (s.data.map (fun c => Json.str ⟨[c]⟩))
  | .obj fields => .ok (fields.map (fun f => Json.str f.1))
  | _ => .error .typeError

/-- A JSON value Neo4j accepts as a node-property parameter: primitives
and lists of primitives; a map makes the store raise a `ClientError`. -/
def isPrimitiveJson : Json → Bool
  | .arr _ => false
  | .obj _ => false
  | _ => true

def neo4jPropOk : Json → Bool
  | .arr xs => xs.all isPrimitiveJson
  | .obj _ => false
  | j => isPrimitiveJson j

/-- The text the Cypher concatenation `'(?i).*' + $entity_id + '.*'`
produces from the parameter: strings stand for themselves, numbers and
booleans coerce to their textual form, `null` propagates (the whole
predicate becomes null, matching no chunk), and a list or map operand
makes the query raise. -/
def cypherConcatText : Json → Except PyError (Option String)
  | .null => .ok none
  | .str s => .ok (some s)
  | .num n => .ok (some (toString n))
  | .bool b => .ok (some (if b then "true" else "false"))
  | _ => .error .clientError

/-- The store state with property values kept as decoded JSON (the code
never converts them): entities are (id, type) pairs, stored relationships
(source, target, normalized label), mentions (chunk position, entity id). -/
structure RawState where
  chunks : List Chunk
  entities : List (Json × Json)
  rels : List (Json × Json × String)
  mentions : List (Nat × Json)

def rawEmpty : RawState := ⟨[], [], [], []⟩

/-- `MERGE (n:Entity {id: $id}) SET n.type = $type` with an arbitrary
decoded id. -/
def rawUpsertEntity (es : List (Json × Json)) (i t : Json) :
    List (Json × Json) :=
  if es.any (fun e => jeq e.1 i) then
    es.map (fun e => if jeq e.1 i then (e.1, t) else e)
  else es ++ [(i, t)]

/-- One iteration of the node loop (lines 114-118): evaluate `node['id']`
then `node['type']`, then run the upsert (the store rejects map-valued
parameters). -/
def rawNodeStep (st : RawState) (node : Json) : Except PyError RawState := do
  let i ← pySubscript node "id"
  let t ← pySubscript node "type"
  if neo4jPropOk i && neo4jPropOk t then
    .ok { st with entities := rawUpsertEntity st.entities i t }
  else .error .clientError

/-- `MERGE (a)-[r:ty]->(b)` on raw ids. -/
def rawMergeRel (rs : List (Json × Json × String)) (s t : Json) (ty : String) :
    List (Json × Json × String) :=
  if rs.any (fun r => jeq r.1 s && jeq r.2.1 t && r.2.2 == ty) then rs
  else rs ++ [(s, t, ty)]

/-- One iteration of the relationship loop (lines 121-130):
`rel['type'].upper()` (an `AttributeError` unless the value is a string),
the normalization, then the guarded edge merge with `rel['source']` and
`rel['target']`. -/
def rawRelStep (st : RawState) (rel : Json) : Except PyError RawState := do
  let tyJ ← pySubscript rel "type"
  match tyJ with
  | .str tyS =>
    let relType := normRelType tyS
    let s ← pySubscript rel "source"
    let t ← pySubscript rel "target"
    if (st.entities.any (fun e => jeq e.1 s)) &&
        (st.entities.any (fun e => jeq e.1 t)) then
      .ok { st with rels := rawMergeRel st.rels s t relType }
    else .ok st
  | _ => .error .attributeError

/-- One iteration of the `MENTIONS` loop (lines 133-145) on a raw id. -/
def rawMentionStep (sample : String) (st : RawState) (node : Json) :
    Except PyError RawState := do
  let i ← pySubscript node "id"
  match cypherConcatText i with
  | .error e => .error e
  | .ok none => .ok st
  | .ok (some istr) =>
    if st.entities.any (fun e => jeq e.1 i) then
      .ok { st with
            mentions :=
              st.chunks.enum.foldl
                (fun ms ic =>
                  if ciContains ic.2.text istr && strContainsSub ic.2.text sample
                  then
                    if ms.any (fun m => m.1 == ic.1 && jeq m.2 i) then ms
                    else ms ++ [(ic.1, i)]
                  else ms)
                st.mentions }
    else .ok st

/-- `ingest_evidence` on the raw backend response: the chunk is embedded
and inserted first (lines 94-106), then the three loops subscript the
decoded payload exactly as the code does; any Python/store exception
aborts the call. -/
def rawIngest (st : RawState) (text src : String) (resp : Option Json) :
    Except PyError RawState := do
  let st1 : RawState := { st with chunks := st.chunks ++ [⟨text, src⟩] }
  let graphData := rawExtract resp
  let nodesJ ← pyGet graphData "nodes" (Json.arr [])
  let nodes ← pyIter nodesJ
  let st2 ← nodes.foldlM rawNodeStep st1
  let relsJ ← pyGet graphData "relationships" (Json.arr [])
  let rels ← pyIter relsJ
  let st3 ← rels.foldlM rawRelStep st2
  let nodesJ2 ← pyGet graphData "nodes" (Json.arr [])
  let nodes2 ← pyIter nodesJ2
  nodes2.foldlM (rawMentionStep (pySlice text 100)) st3

/-- A text is retrievable by similarity search: some record of the vector
index carries it (`similarity_search` ranks over exactly these records). -/
def retrievable (st : RawState) (text : String) : Prop :=
  ∃ c ∈ st.chunks, c.text = text

/-! ## Concrete inputs used when evaluating the code on the spec's
scenarios -/

/-- The end-to-end scenario document of spec §8.6. -/
def caseText : String :=
  "Aris gave Marcus the poison. Marcus had a motive against Helena."

/-- The extraction fragment spec §8.6 stipulates for `caseText`. -/
def caseExt : ExtractionResult :=
  ⟨[⟨"Aris", "Person"⟩, ⟨"Marcus", "Person"⟩, ⟨"Helena", "Person"⟩,
    ⟨"poison", "Object"⟩],
   [⟨"Aris", "Marcus", "RELATED"⟩, ⟨"Marcus", "Helena", "RELATED"⟩,
    ⟨"Marcus", "poison", "POSSESSES"⟩]⟩

/-- The store after ingesting the scenario document into a fresh store. -/
def caseState : GraphState := ingest emptyGS caseText "evidence.txt" caseExt

/-- A similarity search that returns the scenario document's chunk. -/
def caseRetrieved : List Chunk := [⟨caseText, "evidence.txt"⟩]

/-- First ingestion for the dangling-edge experiment: two entities, no
relationships. -/
def c6extA : ExtractionResult :=
  ⟨[⟨"Aris", "Person"⟩, ⟨"Marcus", "Person"⟩], []⟩

/-- Second ingestion: one relationship whose endpoints are absent from
this extraction's (empty) node list. -/
def c6extB : ExtractionResult :=
  ⟨[], [⟨"Aris", "Marcus", "RELATED"⟩]⟩

/-- The store after the two ingestions above. -/
def c6stCross : GraphState :=
  ingest (ingest emptyGS "Aris met Marcus." "d1.txt" c6extA)
    "Marcus was seen again." "d2.txt" c6extB

/-- A store that already holds the two endpoint entities. -/
def c7stAB : GraphState :=
  ⟨[], [⟨"Aris", "Person"⟩, ⟨"Marcus", "Person"⟩], [], []⟩

/-- A well-formed JSON response whose single node object lacks the
`"id"` key. -/
def badNodeResp : Json :=
  Json.obj [("nodes", Json.arr [Json.obj [("type", Json.str "Person")]]),
            ("relationships", Json.arr [])]

/-! ## Helper lemmas on the entity table -/

theorem anyCongr {α : Type} {l : List α} {p q : α → Bool}
    (h : ∀ a ∈ l, p a = q a) : l.any p = l.any q := by
  induction l with
  | nil => rfl
  | cons a l ih =>
    simp only [List.any_cons]
    rw [h a (List.mem_cons_self a l), ih (fun b hb => h b (List.mem_cons_of_mem a hb))]

theorem setTypeAll_cons (e : Entity) (es : List Entity) (i ty : String) :
    setTypeAll (e :: es) i ty =
      (if e.id == i then { e with type := ty } else e) :: setTypeAll es i ty := rfl

theorem entHasId_setTypeAll (es : List Entity) (i ty j : String) :
    entHasId (setTypeAll es i ty) j = entHasId es j := by
  unfold entHasId setTypeAll
  rw [List.any_map]
  exact anyCongr (fun e _ => by by_cases h : e.id = i <;> simp [h])

theorem setTypeAll_setTypeAll_same (es : List Entity) (i t₁ t₂ : String) :
    setTypeAll (setTypeAll es i t₁) i t₂ = setTypeAll es i t₂ := by
  unfold setTypeAll
  rw [List.map_map]
  exact List.map_congr_left (fun e _ => by by_cases h : e.id = i <;> simp [h])

theorem setTypeAll_comm (es : List Entity) (i j t u : String) (hij : i ≠ j) :
    setTypeAll (setTypeAll es i t) j u = setTypeAll (setTypeAll es j u) i t := by
  unfold setTypeAll
  rw [List.map_map, List.map_map]
  refine List.map_congr_left (fun e _ => ?_)
  by_cases h : e.id = i
  · have h2 : e.id ≠ j := fun hj => hij (h.symm.trans hj)
    simp [h, h2, hij, Ne.symm hij]
  · by_cases h2 : e.id = j <;> simp [h, h2, hij, Ne.symm hij]

theorem setTypeAll_absent (es : List Entity) (i t : String)
    (h : entHasId es i = false) : setTypeAll es i t = es := by
  unfold setTypeAll
  have h' : ∀ e ∈ es, e.id ≠ i := by
    intro e he hei
    have : entHasId es i = true := by
      unfold entHasId
      rw [List.any_eq_true]
      exact ⟨e, he, by simp [hei]⟩
    simp [this] at h
  calc es.map (fun e => if e.id == i then { e with type := t } else e)
      = es.map id := List.map_congr_left (fun e he => by simp [h' e he])
    _ = es := List.map_id es

theorem entHasId_upsertEntity (es : List Entity) (i ty j : String) :
    entHasId (upsertEntity es i ty) j = (entHasId es j || i == j) := by
  unfold upsertEntity
  by_cases h : entHasId es i
  · rw [if_pos h, entHasId_setTypeAll]
    by_cases hij : i = j
    · subst hij
      simp [h]
    · simp [hij]
  · rw [if_neg h]
    unfold entHasId
    simp [List.any_append]

theorem upsertEntity_setTypeAll_comm (es : List Entity) (i j t u : String)
    (hij : i ≠ j) :
    upsertEntity (setTypeAll es i t) j u = setTypeAll (upsertEntity es j u) i t := by
  unfold upsertEntity
  rw [entHasId_setTypeAll]
  by_cases h : entHasId es j
  · rw [if_pos h, if_pos h, setTypeAll_comm es i j t u hij]
  · rw [if_neg h, if_neg h]
    unfold setTypeAll
    rw [List.map_append]
    have : ((⟨j, u⟩ : Entity).id == i) = false := by
      simp
      exact fun hj => hij hj.symm
    simp [this, Ne.symm hij]

theorem entHasId_false_forall (es : List Entity) (i : String)
    (h : entHasId es i = false) : ∀ e ∈ es, e.id ≠ i := by
  intro e he hei
  have : entHasId es i = true := by
    unfold entHasId
    rw [List.any_eq_true]
    exact ⟨e, he, by simp [hei]⟩
  simp [this] at h

theorem entHasId_applyNodes (es : List Entity) (ns : List ExtNode) (j : String) :
    entHasId (applyNodes es ns) j = (entHasId es j || assignedIn ns j) := by
  induction ns generalizing es with
  | nil => simp [applyNodes, assignedIn]
  | cons n ns ih =>
    show entHasId (applyNodes (upsertEntity es n.id n.type) ns) j = _
    rw [ih, entHasId_upsertEntity]
    simp [assignedIn, Bool.or_assoc]

theorem applyNodes_setTypeAll (ns : List ExtNode) (es : List Entity)
    (i t : String) (h : assignedIn ns i = true) :
    applyNodes (setTypeAll es i t) ns = applyNodes es ns := by
  induction ns generalizing es t with
  | nil => simp [assignedIn] at h
  | cons n ns ih =>
    show applyNodes (upsertEntity (setTypeAll es i t) n.id n.type) ns
        = applyNodes (upsertEntity es n.id n.type) ns
    by_cases hn : n.id = i
    · subst hn
      have heq : upsertEntity (setTypeAll es n.id t) n.id n.type
          = upsertEntity es n.id n.type := by
        unfold upsertEntity
        rw [entHasId_setTypeAll]
        by_cases hp : entHasId es n.id
        · rw [if_pos hp, if_pos hp, setTypeAll_setTypeAll_same]
        · rw [if_neg hp, if_neg hp, setTypeAll_absent es n.id t (Bool.eq_false_iff.mpr hp)]
      rw [heq]
    · have hij : i ≠ n.id := fun hi => hn hi.symm
      rw [upsertEntity_setTypeAll_comm es i n.id t n.type hij]
      have h' : assignedIn ns i = true := by
        simpa [assignedIn, hn] using h
      exact ih (upsertEntity es n.id n.type) t h'

theorem AllIdType_upsertEntity_self (es : List Entity) (i t : String) :
    AllIdType (upsertEntity es i t) i t := by
  unfold upsertEntity
  by_cases hp : entHasId es i
  · rw [if_pos hp]
    intro e' he' hid
    rcases List.mem_map.mp he' with ⟨e, _, hfe⟩
    by_cases h : e.id = i
    · rw [← hfe]
      simp [h]
    · rw [← hfe] at hid
      simp [h] at hid
  · rw [if_neg hp]
    intro e' he' hid
    rcases List.mem_append.mp he' with he | he
    · exact absurd hid (entHasId_false_forall es i (Bool.eq_false_iff.mpr hp) e' he)
    · simp at he
      rw [he]

theorem AllIdType_upsertEntity_other (es : List Entity) (i t j u : String)
    (hij : j ≠ i) (hall : AllIdType es i t) :
    AllIdType (upsertEntity es j u) i t := by
  unfold upsertEntity
  by_cases hp : entHasId es j
  · rw [if_pos hp]
    intro e' he' hid
    rcases List.mem_map.mp he' with ⟨e, he, hfe⟩
    by_cases h : e.id = j
    · rw [← hfe] at hid
      simp [h] at hid
      exact absurd hid hij
    · rw [← hfe] at hid ⊢
      simp [h] at hid ⊢
      exact hall e he hid
  · rw [if_neg hp]
    intro e' he' hid
    rcases List.mem_append.mp he' with he | he
    · exact hall e' he hid
    · simp at he
      rw [he] at hid
      exact absurd hid hij

theorem AllIdType_applyNodes (ns : List ExtNode) (es : List Entity)
    (i t : String) (h : assignedIn ns i = false) (hall : AllIdType es i t) :
    AllIdType (applyNodes es ns) i t := by
  induction ns generalizing es with
  | nil => exact hall
  | cons n ns ih =>
    have hhead : ¬(n.id = i) := by
      intro hni
      simp [assignedIn, hni] at h
    have htail : assignedIn ns i = false := by
      simp only [assignedIn, List.any_cons, Bool.or_eq_false_iff] at h
      simpa [assignedIn] using h.2
    exact ih (upsertEntity es n.id n.type) htail
      (AllIdType_upsertEntity_other es i t n.id n.type hhead hall)

theorem upsertEntity_of_present (es : List Entity) (i t : String)
    (hp : entHasId es i = true) : upsertEntity es i t = setTypeAll es i t := by
  unfold upsertEntity
  rw [if_pos hp]

theorem upsertEntity_self_of_AllIdType (es : List Entity) (i t : String)
    (hp : entHasId es i = true) (hall : AllIdType es i t) :
    upsertEntity es i t = es := by
  unfold upsertEntity
  rw [if_pos hp]
  unfold setTypeAll
  calc es.map (fun e => if e.id == i then { e with type := t } else e)
      = es.map id := by
        refine List.map_congr_left (fun e he => ?_)
        by_cases h : e.id = i
        · simp only [h, beq_self_eq_true, if_true, id]
          rw [← hall e he h, ← h]
        · simp [h]
    _ = es := List.map_id es

/-- Replaying the same node list over an already node-merged entity table
changes nothing. -/
theorem applyNodes_idem (ns : List ExtNode) (es : List Entity) :
    applyNodes (applyNodes es ns) ns = applyNodes es ns := by
  induction ns generalizing es with
  | nil => rfl
  | cons n ns ih =>
    show applyNodes (applyNodes (upsertEntity es n.id n.type) ns) (n :: ns)
        = applyNodes (upsertEntity es n.id n.type) ns
    have hp : entHasId (applyNodes (upsertEntity es n.id n.type) ns) n.id = true := by
      rw [entHasId_applyNodes, entHasId_upsertEntity]
      simp
    show applyNodes
        (upsertEntity (applyNodes (upsertEntity es n.id n.type) ns) n.id n.type) ns = _
    by_cases ha : assignedIn ns n.id
    · rw [upsertEntity_of_present _ n.id n.type hp,
        applyNodes_setTypeAll ns _ n.id n.type ha]
      exact ih (upsertEntity es n.id n.type)
    · have hall : AllIdType (applyNodes (upsertEntity es n.id n.type) ns) n.id n.type :=
        AllIdType_applyNodes ns _ n.id n.type (Bool.eq_false_iff.mpr ha)
          (AllIdType_upsertEntity_self es n.id n.type)
      rw [upsertEntity_self_of_AllIdType _ n.id n.type hp hall]
      exact ih (upsertEntity es n.id n.type)

/-! ## Helper lemmas on the relationship table -/

theorem mem_mergeRel_of_mem (rs : List Relationship) (s t ty : String)
    (x : Relationship) (hx : x ∈ rs) : x ∈ mergeRel rs s t ty := by
  unfold mergeRel
  split
  · exact hx
  · exact List.mem_append_left _ hx

theorem relHas_of_mem (rs : List Relationship) (x : Relationship)
    (hx : x ∈ rs) : relHas rs x.source x.target x.type = true := by
  unfold relHas
  rw [List.any_eq_true]
  exact ⟨x, hx, by simp⟩

theorem mem_mergeRel_self (rs : List Relationship) (s t ty : String) :
    (⟨s, t, ty⟩ : Relationship) ∈ mergeRel rs s t ty := by
  unfold mergeRel
  split
  · next h =>
    unfold relHas at h
    rw [List.any_eq_true] at h
    rcases h with ⟨x, hx, hm⟩
    simp only [Bool.and_eq_true, beq_iff_eq] at hm
    have : x = ⟨s, t, ty⟩ := by
      cases x
      simp_all
    exact this ▸ hx
  · exact List.mem_append_right _ (List.mem_singleton_self _)

theorem mem_relsFold_of_mem (E : List Entity) (l : List Relationship)
    (rs : List Relationship) (x : Relationship) (hx : x ∈ rs) :
    x ∈ relsFold E rs l := by
  induction l generalizing rs with
  | nil => exact hx
  | cons a l ih =>
    show x ∈ relsFold E (relStepRels E rs a) l
    refine ih (relStepRels E rs a) ?_
    unfold relStepRels
    split
    · exact mem_mergeRel_of_mem rs a.source a.target (normRelType a.type) x hx
    · exact hx

theorem mem_relsFold_target (E : List Entity) (l : List Relationship)
    (r : Relationship)
    (hg : (entHasId E r.source && entHasId E r.target) = true) :
    ∀ rs : List Relationship, r ∈ l →
      (⟨r.source, r.target, normRelType r.type⟩ : Relationship) ∈ relsFold E rs l := by
  induction l with
  | nil =>
    intro rs hr
    exact absurd hr (List.not_mem_nil r)
  | cons a l ih =>
    intro rs hr
    show _ ∈ relsFold E (relStepRels E rs a) l
    rcases List.mem_cons.mp hr with rfl | hr'
    · refine mem_relsFold_of_mem E l _ _ ?_
      unfold relStepRels
      rw [if_pos hg]
      exact mem_mergeRel_self rs r.source r.target (normRelType r.type)
    · exact ih (relStepRels E rs a) hr'

theorem relsFold_fixed (E : List Entity) (l : List Relationship)
    (rs : List Relationship)
    (h : ∀ r ∈ l, (entHasId E r.source && entHasId E r.target) = true →
        (⟨r.source, r.target, normRelType r.type⟩ : Relationship) ∈ rs) :
    relsFold E rs l = rs := by
  induction l with
  | nil => rfl
  | cons a l ih =>
    show relsFold E (relStepRels E rs a) l = rs
    have hstep : relStepRels E rs a = rs := by
      unfold relStepRels
      split
      · next hg =>
        have hmem := h a (List.mem_cons_self a l) hg
        unfold mergeRel
        rw [relHas_of_mem rs _ hmem]
        simp
      · rfl
    rw [hstep]
    exact ih (fun r hr => h r (List.mem_cons_of_mem a hr))

/-- Replaying the same relationship list against the same entity table is
the identity on the relationship table. -/
theorem relsFold_idem (E : List Entity) (l : List Relationship)
    (rs : List Relationship) :
    relsFold E (relsFold E rs l) l = relsFold E rs l :=
  relsFold_fixed E l _ (fun r hr hg => mem_relsFold_target E l r hg rs hr)

/-! ## Frame lemmas: which state component each loop touches -/

theorem nodeLoop_eq (ns : List ExtNode) (st : GraphState) :
    ns.foldl runNodeUpsert st = { st with entities := applyNodes st.entities ns } := by
  induction ns generalizing st with
  | nil => rfl
  | cons n ns ih => exact ih (runNodeUpsert st n)

theorem relLoop_eq (l : List Relationship) (st : GraphState) :
    l.foldl runEdgeUpsert st = { st with rels := relsFold st.entities st.rels l } := by
  induction l generalizing st with
  | nil => rfl
  | cons r l ih => exact ih (runEdgeUpsert st r)

theorem runMention_frame (st : GraphState) (n : ExtNode) (sample : String) :
    (runMention st n sample).entities = st.entities ∧
    (runMention st n sample).rels = st.rels ∧
    (runMention st n sample).chunks = st.chunks := by
  unfold runMention
  split <;> exact ⟨rfl, rfl, rfl⟩

theorem mentionLoop_frame (ns : List ExtNode) (sample : String) (st : GraphState) :
    (ns.foldl (fun s n => runMention s n sample) st).entities = st.entities ∧
    (ns.foldl (fun s n => runMention s n sample) st).rels = st.rels ∧
    (ns.foldl (fun s n => runMention s n sample) st).chunks = st.chunks := by
  induction ns generalizing st with
  | nil => exact ⟨rfl, rfl, rfl⟩
  | cons n ns ih =>
    have h1 := runMention_frame st n sample
    have h2 := ih (runMention st n sample)
    exact ⟨h2.1.trans h1.1, h2.2.1.trans h1.2.1, h2.2.2.trans h1.2.2⟩

theorem ingest_unfold (st : GraphState) (text src : String)
    (ext : ExtractionResult) :
    ingest st text src ext
      = List.foldl (fun s n => runMention s n (pySlice text 100))
          (ext.relationships.foldl runEdgeUpsert
            (ext.nodes.foldl runNodeUpsert
              { st with chunks := st.chunks ++ [⟨text, src⟩] }))
          ext.nodes := rfl

/-- What one `ingest_evidence` call does to each persistent component. -/
theorem ingest_eq (st : GraphState) (text src : String) (ext : ExtractionResult) :
    (ingest st text src ext).entities = applyNodes st.entities ext.nodes ∧
    (ingest st text src ext).rels
        = relsFold (applyNodes st.entities ext.nodes) st.rels ext.relationships ∧
    (ingest st text src ext).chunks = st.chunks ++ [⟨text, src⟩] := by
  rw [ingest_unfold, nodeLoop_eq, relLoop_eq]
  exact ⟨(mentionLoop_frame ext.nodes (pySlice text 100) _).1,
    (mentionLoop_frame ext.nodes (pySlice text 100) _).2.1,
    (mentionLoop_frame ext.nodes (pySlice text 100) _).2.2⟩

/-! ## C1: merge idempotence -/

/-- **C1** (confirmed).  If the Extractor returns the identical extraction
fragment on each call, ingesting the same document twice leaves the Graph
Store with exactly the same entity table and the same relationship table
(same lists, hence same sets and multiplicities) as ingesting it once. -/
theorem c1_ingest_idempotent (st : GraphState) (text src : String)
    (ext : ExtractionResult) :
    (ingest (ingest st text src ext) text src ext).entities
        = (ingest st text src ext).entities ∧
    (ingest (ingest st text src ext) text src ext).rels
        = (ingest st text src ext).rels := by
  have h1 := ingest_eq st text src ext
  have h2 := ingest_eq (ingest st text src ext) text src ext
  constructor
  · rw [h2.1, h1.1, applyNodes_idem]
  · rw [h2.2.1, h1.1, h1.2.1, applyNodes_idem]
    exact relsFold_idem _ _ _

/-! ## C7: edge upsert matches existing entities only -/

/-- **C7** (confirmed).  If either endpoint id has no `Entity` node in the
store at edge-upsert time, the upsert leaves the state untouched (no edge,
no new entity); if both exist, the normalized directed edge is merged
between them and nothing else changes. -/
theorem c7_edge_upsert_matches_existing (st : GraphState) (r : Relationship) :
    (¬((entHasId st.entities r.source && entHasId st.entities r.target) = true) →
      runEdgeUpsert st r = st) ∧
    ((entHasId st.entities r.source && entHasId st.entities r.target) = true →
      (runEdgeUpsert st r).entities = st.entities ∧
      (runEdgeUpsert st r).chunks = st.chunks ∧
      (runEdgeUpsert st r).rels
          = mergeRel st.rels r.source r.target (normRelType r.type) ∧
      (⟨r.source, r.target, normRelType r.type⟩ : Relationship)
          ∈ (runEdgeUpsert st r).rels) := by
  constructor
  · intro h
    unfold runEdgeUpsert relStepRels
    rw [if_neg h]
  · intro h
    unfold runEdgeUpsert relStepRels
    rw [if_pos h]
    exact ⟨rfl, rfl, rfl, mem_mergeRel_self _ _ _ _⟩

theorem c7_edge_upsert_matches_existing_witness :
    runEdgeUpsert emptyGS ⟨"Aris", "Marcus", "RELATED"⟩ = emptyGS ∧
    (⟨"Aris", "Marcus", "RELATED"⟩ : Relationship)
        ∈ (runEdgeUpsert c7stAB ⟨"Aris", "Marcus", "RELATED"⟩).rels := by
  constructor
  · exact (c7_edge_upsert_matches_existing emptyGS ⟨"Aris", "Marcus", "RELATED"⟩).1
      (by decide)
  · have h := ((c7_edge_upsert_matches_existing c7stAB
      ⟨"Aris", "Marcus", "RELATED"⟩).2 (by decide)).2.2.2
    have hn : normRelType "RELATED" = "RELATED" := by decide
    rw [hn] at h
    exact h

/-! ## C2: the end-to-end scenario -/

/-- **C2** (code bug).  Evaluating the code on the §8.6 scenario: the
two-hop Aris–Marcus–Helena path is found and the returned context text
does contain the ingested sentence, but the produced fact string is
`"Aris --[None]--> Marcus --[None]--> Helena"`, not the claimed
`"Aris --[RELATED]--> Marcus --[RELATED]--> Helena"`: the traversal's
`RETURN` clause reads the relationship *property* `r1.type`, which the
edge `MERGE` never sets, instead of the relationship type `type(r1)`. -/
theorem c2_scenario_eval :
    "Aris --[RELATED]--> Marcus --[RELATED]--> Helena"
        ∉ (investigate caseState caseRetrieved).2.2 ∧
    "Aris --[None]--> Marcus --[None]--> Helena"
        ∈ (investigate caseState caseRetrieved).2.2 ∧
    strContainsSub (investigate caseState caseRetrieved).2.1 caseText = true := by
  decide

/-! ## C10: retrieval is read-only on the graph store -/

theorem investigate_acc_state (vectorResults : List Chunk) :
    ∀ acc : GraphState × String × List String,
      (vectorResults.foldl investigateStep acc).1 = acc.1 := by
  induction vectorResults with
  | nil => exact fun acc => rfl
  | cons r rs ih => exact fun acc => ih (investigateStep acc r)

/-- **C10** (confirmed).  The retrieval step issues only the
`MATCH`/`WHERE`/`RETURN` traversal query; for every store state and every
similarity-search result list it leaves the Graph Store unchanged. -/
theorem c10_retrieval_read_only (st : GraphState) (vectorResults : List Chunk) :
    (investigate st vectorResults).1 = st := by
  unfold investigate
  exact investigate_acc_state vectorResults (st, "", [])

/-! ## C8: traversal bound and fact shape -/

theorem investigate_facts (vectorResults : List Chunk) :
    ∀ acc : GraphState × String × List String,
      (vectorResults.foldl investigateStep acc).2.2
        = acc.2.2 ++ vectorResults.flatMap (fun r => factsForChunk acc.1 r.text) := by
  induction vectorResults with
  | nil => exact fun acc => (List.append_nil _).symm
  | cons r rs ih =>
    intro acc
    rw [List.foldl_cons, ih (investigateStep acc r)]
    show (acc.2.2 ++ factsForChunk acc.1 r.text)
          ++ rs.flatMap (fun r' => factsForChunk acc.1 r'.text)
        = acc.2.2 ++ (r :: rs).flatMap (fun r' => factsForChunk acc.1 r'.text)
    rw [List.flatMap_cons, List.append_assoc]

/-- **C8** (confirmed).  Per retrieved chunk the traversal returns at most
20 facts (`LIMIT 20`), the accumulated fact list is exactly the
concatenation of the per-chunk fact lists, and every returned fact string
has the two-hop shape `start --[t1]--> middle --[t2]--> end`. -/
theorem c8_traversal_bound (st : GraphState) (vectorResults : List Chunk) :
    (∀ text, (factsForChunk st text).length ≤ 20) ∧
    (investigate st vectorResults).2.2
        = vectorResults.flatMap (fun r => factsForChunk st r.text) ∧
    (∀ f ∈ (investigate st vectorResults).2.2,
      ∃ a t1 m t2 e, f = mkFact a t1 m t2 e) := by
  have hchar : (investigate st vectorResults).2.2
      = vectorResults.flatMap (fun r => factsForChunk st r.text) := by
    unfold investigate
    exact (investigate_facts vectorResults (st, "", [])).trans (List.nil_append _)
  refine ⟨?_, hchar, ?_⟩
  · intro text
    unfold factsForChunk readTwoHop
    rw [List.length_map]
    exact List.length_take_le _ _
  · intro f hf
    rw [hchar] at hf
    rcases List.mem_flatMap.mp hf with ⟨r, _, hfr⟩
    unfold factsForChunk at hfr
    rcases List.mem_map.mp hfr with ⟨row, _, rfl⟩
    exact ⟨row.startId, pyShowOpt (relPropType row.r1), row.middleId,
      pyShowOpt (relPropType row.r2), row.endId, rfl⟩

theorem c8_traversal_bound_witness :
    (factsForChunk caseState caseText).length ≤ 20 ∧
    (investigate caseState caseRetrieved).2.2
        = caseRetrieved.flatMap (fun r => factsForChunk caseState r.text) ∧
    (∃ a t1 m t2 e,
      "Aris --[None]--> Marcus --[None]--> Helena" = mkFact a t1 m t2 e) := by
  have h := c8_traversal_bound caseState caseRetrieved
  exact ⟨h.1 caseText, h.2.1, h.2.2 _ (by decide)⟩

/-! ## C9: synthesizer fact de-duplication -/

/-- **C9** (confirmed).  `solve_crime` joins `set(graph_context)`: each
distinct fact string occurs at most once in the de-duplicated list the
prompt embeds, no fact is lost or invented, and the prompt built from the
raw fact list equals the prompt built from the de-duplicated one. -/
theorem c9_synth_dedup (query contextText : String) (graphContext : List String)
    (f : String) :
    List.count f (synthFacts graphContext) ≤ 1 ∧
    (f ∈ synthFacts graphContext ↔ f ∈ graphContext) ∧
    crimePrompt query contextText graphContext
        = crimePrompt query contextText (synthFacts graphContext) := by
  refine ⟨?_, ?_, ?_⟩
  · exact List.nodup_iff_count_le_one.mp (List.nodup_dedup graphContext) f
  · unfold synthFacts
    exact List.mem_dedup
  · unfold crimePrompt synthFacts
    rw [List.dedup_idem]

/-! ## C4: extraction parse-failure isolation -/

/-- **C4** (confirmed).  When the backend's extraction response is not
valid JSON, `extract_graph_schema` substitutes the empty result, the
ingest call completes successfully, its only effect on the store is the
already-performed chunk insertion, and the chunk is afterwards retrievable
by similarity search. -/
theorem c4_parse_failure_isolated (st : RawState) (text src : String) :
    rawExtract none
        = Json.obj [("nodes", Json.arr []), ("relationships", Json.arr [])] ∧
    rawIngest st text src none
        = Except.ok { st with chunks := st.chunks ++ [⟨text, src⟩] } ∧
    retrievable { st with chunks := st.chunks ++ [⟨text, src⟩] } text := by
  refine ⟨rfl, rfl, ?_⟩
  exact ⟨⟨text, src⟩, List.mem_append_right _ (List.mem_singleton_self _), rfl⟩

/-! ## C5: shape-mismatch handling -/

/-- **C5** (corrected): the claim as stated is false.  A valid-JSON
response whose single node object lacks the `"id"` key does not fall back
to the empty extraction result: `node['id']` raises `KeyError` and the
ingest call aborts. -/
theorem c5_counterexample :
    rawIngest rawEmpty "t" "s" (some badNodeResp)
        = Except.error PyError.keyError := rfl

/-- **C5** (amended).  Only a top-level shape mismatch degrades gracefully:
a JSON object without `nodes`/`relationships` keys is treated as the empty
result (`.get` defaults) and ingestion completes with just the chunk
insertion; but a node entry that does not match `{id, type}` — e.g. an
object missing the `id` key — makes ingestion raise (`KeyError`) rather
than fall back to the empty result. -/
theorem exceptBind_ok {α β : Type} (a : α) (f : α → Except PyError β) :
    (Except.ok a >>= f) = f a := rfl

theorem exceptBind_err {α β : Type} (e : PyError) (f : α → Except PyError β) :
    ((Except.error e : Except PyError α) >>= f) = Except.error e := rfl

theorem c5_amended_shape_mismatch (st : RawState) (text src : String) :
    (∀ fields : List (String × Json),
      fields.lookup "nodes" = none → fields.lookup "relationships" = none →
      rawIngest st text src (some (Json.obj fields))
        = Except.ok { st with chunks := st.chunks ++ [⟨text, src⟩] }) ∧
    (∀ nodeFields : List (String × Json), nodeFields.lookup "id" = none →
      rawIngest st text src (some (Json.obj
          [("nodes", Json.arr [Json.obj nodeFields]),
           ("relationships", Json.arr [])]))
        = Except.error PyError.keyError) := by
  constructor
  · intro fields h1 h2
    unfold rawIngest rawExtract pyGet
    simp only [h1, h2, Option.getD_none, pyIter, exceptBind_ok]
    rfl
  · intro nodeFields h
    have hsub : pySubscript (Json.obj nodeFields) "id"
        = Except.error PyError.keyError := by
      show (match nodeFields.lookup "id" with
        | some v => Except.ok v
        | none => Except.error PyError.keyError) = Except.error PyError.keyError
      rw [h]
    have hstep : rawNodeStep { st with chunks := st.chunks ++ [⟨text, src⟩] }
        (Json.obj nodeFields) = Except.error PyError.keyError := by
      unfold rawNodeStep
      rw [hsub]
      rfl
    have hfold : List.foldlM rawNodeStep
        { st with chunks := st.chunks ++ [⟨text, src⟩] } [Json.obj nodeFields]
        = Except.error PyError.keyError := by
      show rawNodeStep { st with chunks := st.chunks ++ [⟨text, src⟩] }
          (Json.obj nodeFields) >>= (fun s => List.foldlM rawNodeStep s [])
        = Except.error PyError.keyError
      rw [hstep]
      rfl
    show (List.foldlM rawNodeStep { st with chunks := st.chunks ++ [⟨text, src⟩] }
        [Json.obj nodeFields] >>= fun st2 =>
          List.foldlM (rawMentionStep (pySlice text 100)) st2 [Json.obj nodeFields])
      = Except.error PyError.keyError
    rw [hfold]
    rfl

theorem c5_amended_shape_mismatch_witness :
    rawIngest rawEmpty "t" "s" (some (Json.obj [("foo", Json.null)]))
        = Except.ok { rawEmpty with chunks := [⟨"t", "s"⟩] } ∧
    rawIngest rawEmpty "t2" "s2" (some (Json.obj
        [("nodes", Json.arr [Json.obj [("type", Json.str "Person")]]),
         ("relationships", Json.arr [])]))
        = Except.error PyError.keyError := by
  constructor
  · exact (c5_amended_shape_mismatch rawEmpty "t" "s").1 [("foo", Json.null)] rfl rfl
  · exact (c5_amended_shape_mismatch rawEmpty "t2" "s2").2
      [("type", Json.str "Person")] rfl

/-! ## C6: dangling-edge policy -/

theorem mem_relsFold_cases (E : List Entity) (l : List Relationship) :
    ∀ (rs : List Relationship) (x : Relationship), x ∈ relsFold E rs l →
      x ∈ rs ∨ ∃ r' ∈ l, (entHasId E r'.source && entHasId E r'.target) = true ∧
        x = ⟨r'.source, r'.target, normRelType r'.type⟩ := by
  induction l with
  | nil => exact fun rs x hx => Or.inl hx
  | cons a l ih =>
    intro rs x hx
    rcases ih (relStepRels E rs a) x hx with hx' | ⟨r', hr', hg, hxe⟩
    · unfold relStepRels at hx'
      by_cases hga : (entHasId E a.source && entHasId E a.target) = true
      · rw [if_pos hga] at hx'
        unfold mergeRel at hx'
        by_cases hhas : relHas rs a.source a.target (normRelType a.type) = true
        · rw [if_pos hhas] at hx'
          exact Or.inl hx'
        · rw [if_neg hhas] at hx'
          rcases List.mem_append.mp hx' with hin | hone
          · exact Or.inl hin
          · refine Or.inr ⟨a, List.mem_cons_self a l, hga, ?_⟩
            simpa using hone
      · rw [if_neg hga] at hx'
        exact Or.inl hx'
    · exact Or.inr ⟨r', List.mem_cons_of_mem a hr', hg, hxe⟩

/-- **C6** (corrected): the claim as stated is false.  The ingestion of
`c6extB` — whose node list is empty, so neither `"Aris"` nor `"Marcus"`
is emitted as a node of that extraction — still creates the
`RELATED` edge, because both endpoints already exist in the store from the
previous ingestion: the edge query matches entities in the *store*, not in
the current extraction. -/
theorem c6_counterexample :
    assignedIn c6extB.nodes "Aris" = false ∧
    assignedIn c6extB.nodes "Marcus" = false ∧
    (⟨"Aris", "Marcus", "RELATED"⟩ : Relationship) ∈ c6stCross.rels := by
  decide

/-- **C6** (amended).  A relationship one of whose endpoint ids neither
already has an `Entity` node in the store nor is emitted as a node of the
same extraction creates no edge: no relationship with that (source,
target, normalized type) triple appears after ingestion unless it was
already stored.  (In particular, on a fresh store the extraction-local
reading of the claim holds, since there the store's entities are exactly
the extraction's nodes.) -/
theorem c6_amended_dangling_dropped (st : GraphState) (text src : String)
    (ext : ExtractionResult) (r : Relationship)
    (hmiss : entHasId st.entities r.source = false ∧
        assignedIn ext.nodes r.source = false ∨
      entHasId st.entities r.target = false ∧
        assignedIn ext.nodes r.target = false)
    (hpre : (⟨r.source, r.target, normRelType r.type⟩ : Relationship) ∉ st.rels) :
    (⟨r.source, r.target, normRelType r.type⟩ : Relationship)
        ∉ (ingest st text src ext).rels := by
  intro hmem
  rw [(ingest_eq st text src ext).2.1] at hmem
  rcases mem_relsFold_cases _ _ _ _ hmem with hin | ⟨r', _, hg, hxe⟩
  · exact hpre hin
  · rw [Relationship.mk.injEq] at hxe
    have hsrc : r'.source = r.source := hxe.1.symm
    have htgt : r'.target = r.target := hxe.2.1.symm
    rw [Bool.and_eq_true] at hg
    rcases hmiss with ⟨h1, h2⟩ | ⟨h1, h2⟩
    · have : entHasId (applyNodes st.entities ext.nodes) r.source = false := by
        rw [entHasId_applyNodes, h1, h2]
        rfl
      rw [hsrc, this] at hg
      exact Bool.false_ne_true hg.1
    · have : entHasId (applyNodes st.entities ext.nodes) r.target = false := by
        rw [entHasId_applyNodes, h1, h2]
        rfl
      rw [htgt, this] at hg
      exact Bool.false_ne_true hg.2

theorem c6_amended_dangling_dropped_witness :
    (⟨"Aris", "Marcus", "RELATED"⟩ : Relationship)
        ∉ (ingest emptyGS "Marcus was seen again." "d2.txt" c6extB).rels := by
  have h := c6_amended_dangling_dropped emptyGS "Marcus was seen again." "d2.txt"
    c6extB ⟨"Aris", "Marcus", "RELATED"⟩
    (Or.inl ⟨by decide, by decide⟩) (by decide)
  have hn : normRelType "RELATED" = "RELATED" := by decide
  rw [hn] at h
  exact h

/-! ## C3: relationship-type normalization -/

/-- **C3** (corrected): the claim as stated is false.  The normalization
only uppercases and replaces spaces and hyphens; it does not restrict the
output alphabet to `[A-Z0-9_]`: the extracted type `"a.b"` is stored and
interpolated as `"A.B"`, which contains `'.'`. -/
theorem c3_counterexample :
    normRelType "a.b" = "A.B" ∧
    ((normRelType "a.b").data.all cypherSafeChar) = false := by
  decide

/-- **C3** (amended).  The normalization uppercases and replaces each
space and hyphen with an underscore, so for every relationship type built
from ASCII letters, digits, spaces, hyphens and underscores the stored
(and interpolated) token lies in `[A-Z0-9_]`; in particular
`"has motive"` normalizes to `"HAS_MOTIVE"`. -/
theorem c3_amended_normalization :
    (∀ s : String, (∀ c ∈ s.data, c ∈ benignChars) →
      ∀ c ∈ (normRelType s).data, cypherSafeChar c = true) ∧
    normRelType "has motive" = "HAS_MOTIVE" := by
  constructor
  · intro s hs c hc
    have hdata : (normRelType s).data
        = ((s.data.map Char.toUpper).map
            (fun c => if c == ' ' then '_' else c)).map
            (fun c => if c == '-' then '_' else c) := rfl
    rw [hdata] at hc
    rcases List.mem_map.mp hc with ⟨c1, hc1, rfl⟩
    rcases List.mem_map.mp hc1 with ⟨c2, hc2, rfl⟩
    rcases List.mem_map.mp hc2 with ⟨a, ha, rfl⟩
    have hall : benignChars.all
        (fun a => cypherSafeChar
          (if (if a.toUpper == ' ' then '_' else a.toUpper) == '-' then '_'
           else if a.toUpper == ' ' then '_' else a.toUpper)) = true := by
      decide
    exact List.all_eq_true.mp hall a (hs a ha)
  · decide

theorem c3_amended_normalization_witness :
    ((normRelType "has motive").data.all cypherSafeChar) = true ∧
    normRelType "has motive" = "HAS_MOTIVE" := by
  refine ⟨List.all_eq_true.mpr ?_, c3_amended_normalization.2⟩
  exact c3_amended_normalization.1 "has motive" (by decide)
